import Mathlib

/-!
Shallow embedding of `src/simcache.cpp` (E20 cache simulator):
the cache model (`CacheBlock`, `Cache`, `Cache.loadWord`, `Cache.storeWord`),
the three instruction handlers (`execute_instruction`,
`execute_imm_instruction`, `execute_control_instruction`) and the
fetch-execute loop of `main` (`step`, `run`).

Machine integers are modelled as `Nat` with explicit `% 65536` (uint16_t)
and `% 8192` (the 13-bit address mask), matching the C++ conversions.
The per-line `lru` field is a C++ `int` compared against the sentinel
`-1`, so it is modelled as `Int`.
-/

namespace Simcache

/-- One cache line: struct `CacheBlock` of simcache.cpp
(`valid`, `tag`, `lru`), constructed invalid with tag 0 and lru 0. -/
structure CacheBlock where
  valid : Bool
  tag : Nat
  lru : Int
deriving DecidableEq

/-- `CacheBlock(int blocksize)` initialises `valid(false), tag(0), lru(0)`. -/
def CacheBlock.init : CacheBlock := ⟨false, 0, 0⟩

/-- Struct `Cache` of simcache.cpp. A row is a list of `associativity`
blocks (struct `CacheRow`); `numRows` is the value computed by the
constructor. -/
structure Cache where
  rows : List (List CacheBlock)
  cacheSize : Nat
  associativity : Nat
  blocksize : Nat
  numRows : Nat
deriving DecidableEq

/-- `Cache::Cache(int size, int assoc, int bsize)`: `numRows` is the
truncating integer division `size / (assoc * bsize)` — the constructor
performs no validation — and `rows` holds `numRows` rows of `assoc`
invalid blocks each. -/
def Cache.init (size assoc bsize : Nat) : Cache :=
  { rows := List.replicate (size / (assoc * bsize))
      (List.replicate assoc CacheBlock.init),
    cacheSize := size, associativity := assoc, blocksize := bsize,
    numRows := size / (assoc * bsize) }

/-- `block.lru++`. -/
def bumpLru (b : CacheBlock) : CacheBlock := { b with lru := b.lru + 1 }

/-- The first loop of `Cache::loadWord`: walk the row left to right,
incrementing each block's lru; on the first valid block whose tag
matches, reset that block's lru to 0 and increment every *other* block
once more (the inner `for (j) if (j != i) lru++` loop), returning the
updated row and the hit flag. `done` is the already-visited prefix,
each of its blocks incremented once. -/
def loadFirstLoop (tag : Nat) (done : List CacheBlock) :
    List CacheBlock → List CacheBlock × Bool
  | [] => (done, false)
  | b :: rest =>
    let b' := bumpLru b
    if b'.valid && b'.tag == tag then
      (done.map bumpLru ++ { b' with lru := 0 } :: rest.map bumpLru, true)
    else
      loadFirstLoop tag (done ++ [b']) rest

/-- The miss-path victim scan of `Cache::loadWord`: `lruIndex`/`maxLRU`
fold with `maxLRU` initialised to `-1`, adopting index `i` whenever
`blocks[i].lru > maxLRU` (first maximum wins). -/
def loadVictimScan : List CacheBlock → Nat → Int → Int → Int
  | [], _, lruIndex, _ => lruIndex
  | b :: rest, i, lruIndex, maxLRU =>
    if b.lru > maxLRU then loadVictimScan rest (i + 1) (i : Int) b.lru
    else loadVictimScan rest (i + 1) lruIndex maxLRU

/-- `Cache::loadWord(uint16_t address, int &rowIndex)`. Returns the
updated cache, the hit flag (the C++ `int` 1/0 return) and the row
index written through `rowIndex`. -/
def Cache.loadWord (c : Cache) (address : Nat) : Cache × Bool × Nat :=
  let tag := (address / c.blocksize) / c.numRows
  let rowIndex := (address / c.blocksize) % c.numRows
  let row := c.rows.getD rowIndex []
  let scanned := loadFirstLoop tag [] row
  if scanned.2 then
    ({ c with rows := c.rows.set rowIndex scanned.1 }, true, rowIndex)
  else
    let victim := (loadVictimScan scanned.1 0 (-1) (-1)).toNat
    let newRow := scanned.1.set victim ⟨true, tag, 0⟩
    ({ c with rows := c.rows.set rowIndex newRow }, false, rowIndex)

/-- The single scan of `Cache::storeWord`: for each block, first adopt
it as victim when `!valid || lru > maxLRU` (recording its pre-increment
lru as the new `maxLRU`), then increment its lru. `lruIndex`/`maxLRU`
are initialised to `-1`. Returns the aged row and the final victim
index. -/
def storeScan : List CacheBlock → Nat → Int → Int → List CacheBlock × Int
  | [], _, lruIndex, _ => ([], lruIndex)
  | b :: rest, i, lruIndex, maxLRU =>
    if !b.valid || b.lru > maxLRU then
      let r := storeScan rest (i + 1) (i : Int) b.lru
      (bumpLru b :: r.1, r.2)
    else
      let r := storeScan rest (i + 1) lruIndex maxLRU
      (bumpLru b :: r.1, r.2)

/-- `Cache::storeWord(uint16_t address, int &rowIndex)`: scan the row,
then install the chosen block as `valid = true, tag, lru = 0`. Returns
the updated cache and the row index. -/
def Cache.storeWord (c : Cache) (address : Nat) : Cache × Nat :=
  let tag := (address / c.blocksize) / c.numRows
  let rowIndex := (address / c.blocksize) % c.numRows
  let row := c.rows.getD rowIndex []
  let scanned := storeScan row 0 (-1) (-1)
  let newRow := scanned.1.set scanned.2.toNat ⟨true, tag, 0⟩
  ({ c with rows := c.rows.set rowIndex newRow }, rowIndex)

/-- One `print_log_entry` event: cache name, status, pc, address, row. -/
structure LogEntry where
  cache : String
  status : String
  pc : Nat
  addr : Nat
  row : Nat
deriving DecidableEq

/-- `execute_instruction(uint16_t instr, uint16_t regs[], uint16_t &pc)`:
opcode-000 family (add/sub/or/and/slt/jr by the low-4-bit function
code). Returns the new register file and pc; `regs[0] = 0` and
`pc += 1` are applied at the end exactly as in the source. -/
def execute_instruction (instr : Nat) (regs : List Nat) (pc : Nat) :
    List Nat × Nat :=
  let functionCode := instr % 16
  let regSrcA := (instr / 1024) % 8
  let regSrcB := (instr / 128) % 8
  let regDst := (instr / 16) % 8
  let regs' :=
    if functionCode = 0 then
      regs.set regDst ((regs.getD regSrcA 0 + regs.getD regSrcB 0) % 65536)
    else if functionCode = 1 then
      regs.set regDst
        ((regs.getD regSrcA 0 + 65536 - regs.getD regSrcB 0) % 65536)
    else if functionCode = 2 then
      regs.set regDst (Nat.lor (regs.getD regSrcA 0) (regs.getD regSrcB 0))
    else if functionCode = 3 then
      regs.set regDst (Nat.land (regs.getD regSrcA 0) (regs.getD regSrcB 0))
    else if functionCode = 4 then
      regs.set regDst (if regs.getD regSrcA 0 < regs.getD regSrcB 0 then 1 else 0)
    else regs
  let pc' :=
    if functionCode = 8 then (regs.getD regSrcA 0 + 65536 - 1) % 65536 else pc
  (regs'.set 0 0, (pc' + 1) % 65536)

/-- The shared 7-bit immediate sign extension `if (imm & 0x40) imm |= 0xFF80`
on a `uint16_t` holding `instr & 0x7F`: bit-or with 0xFF80 adds 65408. -/
def signExtend7 (imm : Nat) : Nat := if 64 ≤ imm then imm + 65408 else imm

/-- Result of `execute_imm_instruction`: registers, pc, memory, both
cache levels, and the `print_log_entry` events emitted by this
instruction in order. -/
structure ImmResult where
  regs : List Nat
  pc : Nat
  mem : List Nat
  l1 : Cache
  l2 : Option Cache
  log : List LogEntry
deriving DecidableEq

/-- `execute_imm_instruction(instr, regs, pc, memory, l1Cache, l2Cache)`:
opcode families slti (111), lw (100), sw (101), jeq (110), addi (001).
The shared `imm` is sign-extended *before* the switch, so slti compares
against the sign-extended value; lw and sw re-extract their fields
locally (to identical values). The lw register write is guarded by
`if (!hit)` exactly as in the source, `hit` having been updated by the
L2 lookup when one happened; `regs[0] = 0` runs after the switch. -/
def execute_imm_instruction (instr : Nat) (regs : List Nat) (pc : Nat)
    (memory : List Nat) (l1Cache : Cache) (l2Cache : Option Cache) :
    ImmResult :=
  let opcode := (instr / 8192) % 8
  let regSrc := (instr / 1024) % 8
  let regDst := (instr / 128) % 8
  let imm := signExtend7 (instr % 128)
  let address := (regs.getD regSrc 0 + imm) % 8192
  if opcode = 7 then
    { regs := (regs.set regDst
        (if regs.getD regSrc 0 < imm then 1 else 0)).set 0 0,
      pc := (pc + 1) % 65536, mem := memory,
      l1 := l1Cache, l2 := l2Cache, log := [] }
  else if opcode = 4 then
    let regAddr := (instr / 1024) % 8
    let regDstL := (instr / 128) % 8
    let immL := signExtend7 (instr % 128)
    let addressL := (regs.getD regAddr 0 + immL) % 8192
    let r1 := l1Cache.loadWord addressL
    let e1 : LogEntry :=
      ⟨"L1", if r1.2.1 then "HIT" else "MISS", pc, addressL, r1.2.2⟩
    match l2Cache with
    | some l2c =>
      if r1.2.1 then
        { regs := regs.set 0 0, pc := (pc + 1) % 65536, mem := memory,
          l1 := r1.1, l2 := some l2c, log := [e1] }
      else
        let r2 := l2c.loadWord addressL
        let e2 : LogEntry :=
          ⟨"L2", if r2.2.1 then "HIT" else "MISS", pc, addressL, r2.2.2⟩
        let loadAddr := (regs.getD regAddr 0 + immL) % 8192
        let regs' :=
          if r2.2.1 then regs
          else if loadAddr < 8192 then
            regs.set regDstL (memory.getD loadAddr 0)
          else regs
        { regs := regs'.set 0 0, pc := (pc + 1) % 65536, mem := memory,
          l1 := r1.1, l2 := some r2.1, log := [e1, e2] }
    | none =>
      let loadAddr := (regs.getD regAddr 0 + immL) % 8192
      let regs' :=
        if r1.2.1 then regs
        else if loadAddr < 8192 then
          regs.set regDstL (memory.getD loadAddr 0)
        else regs
      { regs := regs'.set 0 0, pc := (pc + 1) % 65536, mem := memory,
        l1 := r1.1, l2 := none, log := [e1] }
  else if opcode = 5 then
    let regAddr := (instr / 1024) % 8
    let regSrcS := (instr / 128) % 8
    let immS := signExtend7 (instr % 128)
    let storeAddr := (regs.getD regAddr 0 + immS) % 8192
    let memory' :=
      if storeAddr < 8192 then memory.set storeAddr (regs.getD regSrcS 0)
      else memory
    let s1 := l1Cache.storeWord address
    let e1 : LogEntry := ⟨"L1", "SW", pc, address, s1.2⟩
    match l2Cache with
    | some l2c =>
      let s2 := l2c.storeWord address
      { regs := regs.set 0 0, pc := (pc + 1) % 65536, mem := memory',
        l1 := s1.1, l2 := some s2.1,
        log := [e1, ⟨"L2", "SW", pc, address, s2.2⟩] }
    | none =>
      { regs := regs.set 0 0, pc := (pc + 1) % 65536, mem := memory',
        l1 := s1.1, l2 := none, log := [e1] }
  else if opcode = 6 then
    { regs := regs.set 0 0,
      pc := if regs.getD regSrc 0 = regs.getD regDst 0 then
              (pc + 1 + imm) % 65536
            else (pc + 1) % 65536,
      mem := memory, l1 := l1Cache, l2 := l2Cache, log := [] }
  else if opcode = 1 then
    { regs := (regs.set regDst ((regs.getD regSrc 0 + imm) % 65536)).set 0 0,
      pc := (pc + 1) % 65536, mem := memory,
      l1 := l1Cache, l2 := l2Cache, log := [] }
  else
    { regs := regs.set 0 0, pc := (pc + 1) % 65536,
      mem := memory, l1 := l1Cache, l2 := l2Cache, log := [] }

/-- `execute_control_instruction(instr, regs, pc, isHalt)`: j (010)
halts on a self-jump (`imm == pc`) and otherwise sets `pc := imm`;
jal (011) sets `regs[7] = pc + 1` then `pc := imm`. `regs[0] = 0` runs
at the end. Returns (regs, pc, isHalt). -/
def execute_control_instruction (instr : Nat) (regs : List Nat) (pc : Nat)
    (isHalt : Bool) : List Nat × Nat × Bool :=
  let opcode := (instr / 8192) % 8
  let imm := instr % 8192
  if opcode = 2 then
    if imm = pc then (regs.set 0 0, pc, true)
    else (regs.set 0 0, imm, isHalt)
  else if opcode = 3 then
    ((regs.set 7 ((pc + 1) % 65536)).set 0 0, imm, isHalt)
  else (regs.set 0 0, pc, isHalt)

/-- The architectural state of the simulation loop in `main`:
pc, the 8 registers, the 2^13-word memory, the L1 cache, the optional
L2 cache, the halt flag, and the log of cache events emitted so far. -/
structure MachState where
  pc : Nat
  regs : List Nat
  mem : List Nat
  l1 : Cache
  l2 : Option Cache
  halted : Bool
  log : List LogEntry
deriving DecidableEq

/-- One iteration of the `while (!isHalt)` loop of `main`: fetch
`memory[pc & 8191]`; if the opcode is j (010) and its 13-bit immediate
equals pc, set the halt flag and change nothing else; otherwise
dispatch to the family handler exactly as the source's if/else chain
does (000 → register-register; 111/001/100/101/110 → immediate family;
010/011 → control). -/
def step (s : MachState) : MachState :=
  let instr := s.mem.getD (s.pc % 8192) 0
  let imm := instr % 8192
  let opcode := (instr / 8192) % 8
  if opcode = 2 ∧ imm = s.pc then { s with halted := true }
  else if opcode = 0 then
    let r := execute_instruction instr s.regs s.pc
    { s with regs := r.1, pc := r.2 }
  else if opcode = 7 ∨ opcode = 1 ∨ opcode = 4 ∨ opcode = 5 ∨ opcode = 6 then
    let r := execute_imm_instruction instr s.regs s.pc s.mem s.l1 s.l2
    { s with regs := r.regs, pc := r.pc, mem := r.mem, l1 := r.l1,
             l2 := r.l2, log := s.log ++ r.log }
  else
    let r := execute_control_instruction instr s.regs s.pc s.halted
    { s with regs := r.1, pc := r.2.1, halted := r.2.2 }

/-- Run the loop for at most `n` iterations, stopping at a halted
state (the C++ loop has no iteration bound; `run` is its n-step
approximant). -/
def run : Nat → MachState → MachState
  | 0, s => s
  | n + 1, s => if s.halted then s else run n (step s)

/-- The memory image after `load_machine_code`: the program words at
sequential addresses from 0, the rest of the 2^13 words zero. -/
def initMem (prog : List Nat) : List Nat :=
  prog ++ List.replicate (8192 - prog.length) 0

/-- The initial machine state of `main`: pc 0, all registers 0, the
loaded memory image, the configured caches, not halted, empty log. -/
def initState (prog : List Nat) (l1 : Cache) (l2 : Option Cache) :
    MachState :=
  { pc := 0, regs := List.replicate 8 0, mem := initMem prog,
    l1 := l1, l2 := l2, halted := false, log := [] }

/-- The effective memory address shared by the lw and sw paths:
`(regs[bits 12-10] + sign-extended imm7) & 0x1FFF`. -/
def effAddr (instr : Nat) (regs : List Nat) : Nat :=
  (regs.getD ((instr / 1024) % 8) 0 + signExtend7 (instr % 128)) % 8192

example : (Cache.init 4 1 1).numRows = 4 := by decide

example :
    ((Cache.init 4 1 1).loadWord 5).2 = (false, 1) := by decide

example :
    (((Cache.init 4 1 1).storeWord 5).1.loadWord 5).2 = (true, 1) := by decide

/-- Setting register 0 to 0 makes it read as 0 (also for a register
file list that is too short, where the default applies). -/
theorem getD_set_zero (l : List Nat) : (l.set 0 0).getD 0 0 = 0 := by
  cases l <;> rfl

/-- The effective address is congruent, as an integer, to the base
register plus the *signed* value of the 7-bit immediate, mod 2^13. -/
theorem effAddr_signed (instr : Nat) (regs : List Nat) :
    ((effAddr instr regs : Nat) : Int) =
      ((regs.getD ((instr / 1024) % 8) 0 : Int) +
        ((instr % 128 : Int) - if 64 ≤ instr % 128 then 128 else 0)) % 8192 := by
  unfold effAddr signExtend7
  by_cases h : 64 ≤ instr % 128
  · simp only [if_pos h]
    omega
  · simp only [if_neg h]
    omega

/-- Claim C1 (code_bug demonstration): program = addi $1,$0,7 (8327);
sw $1,5($0) (41093); lw $2,5($0) (33029); self-jump halt (16387), with
an L1 cache of (4,1,1). The store logs L1 SW and the load logs L1 HIT
on the same row 1, memory address 5 holds the stored value 7 — but the
load's destination register $2 still holds 0 afterwards, because the
lw handler only reads memory into the register on a miss. -/
theorem C1_load_after_store_demo :
    (run 10 (initState [8327, 41093, 33029, 16387]
      (Cache.init 4 1 1) none)).halted = true ∧
    (run 10 (initState [8327, 41093, 33029, 16387]
      (Cache.init 4 1 1) none)).mem.getD 5 0 = 7 ∧
    (run 10 (initState [8327, 41093, 33029, 16387]
      (Cache.init 4 1 1) none)).log =
        [⟨"L1", "SW", 1, 5, 1⟩, ⟨"L1", "HIT", 2, 5, 1⟩] ∧
    (run 10 (initState [8327, 41093, 33029, 16387]
      (Cache.init 4 1 1) none)).regs.getD 2 0 = 0 := by
  decide

/-- Claim C2 (counterexample): slti $2,$1,64 (instr 58688) with
$1 = 100 sets $2 to 1, although 100 is not less than the raw unsigned
immediate 64 — the comparison actually uses the sign-extended
immediate 65472. -/
theorem C2_slti_counterexample :
    (execute_imm_instruction 58688 [0, 100, 0, 0, 0, 0, 0, 0] 0 []
        (Cache.init 4 1 1) none).regs.getD 2 0 = 1 ∧
    ¬(100 < 64) := by decide

/-- Claim C2 (amended): slti writes to the destination register 1 iff
the source register is less than the 7-bit immediate *sign-extended to
16 bits* (imm for imm < 64, imm + 65408 otherwise), compared as
unsigned 16-bit values; register 0 is then forced to 0, the pc
advances by 1 mod 2^16, and memory, both caches and the log are
untouched. -/
theorem C2_slti_semantics (instr : Nat) (regs : List Nat) (pc : Nat)
    (memory : List Nat) (l1 : Cache) (l2 : Option Cache)
    (hop : (instr / 8192) % 8 = 7) :
    execute_imm_instruction instr regs pc memory l1 l2 =
      { regs := (regs.set ((instr / 128) % 8)
          (if regs.getD ((instr / 1024) % 8) 0 < signExtend7 (instr % 128)
           then 1 else 0)).set 0 0,
        pc := (pc + 1) % 65536, mem := memory, l1 := l1, l2 := l2,
        log := [] } := by
  unfold execute_imm_instruction
  simp [hop]

/-- Witness for C2_slti_semantics at instr 58688 ($1 = 100, imm 64). -/
theorem C2_slti_semantics_witness :
    execute_imm_instruction 58688 [0, 100, 0, 0, 0, 0, 0, 0] 0 []
        (Cache.init 4 1 1) none =
      { regs := ([0, 100, 0, 0, 0, 0, 0, 0].set 2
          (if 100 < signExtend7 64 then 1 else 0)).set 0 0,
        pc := 1, mem := [], l1 := Cache.init 4 1 1, l2 := none,
        log := [] } :=
  C2_slti_semantics 58688 [0, 100, 0, 0, 0, 0, 0, 0] 0 []
    (Cache.init 4 1 1) none (by decide)

/-- Claim C3 (counterexample): with a (2,2,1) cache, after loading
addresses 0 and 1, line 0 of row 0 has recency 1; loading address 1
again is a hit on line 1, after which line 0's recency is 3 — it grew
by 2, not by exactly 1 (the post-hit loop increments every other line
a second time). -/
theorem C3_load_recency_counterexample :
    let c2 := (((Cache.init 2 2 1).loadWord 0).1.loadWord 1).1
    ((c2.rows.getD 0 []).getD 0 CacheBlock.init).lru = 1 ∧
    (c2.loadWord 1).2.1 = true ∧
    (((c2.loadWord 1).1.rows.getD 0 []).getD 0 CacheBlock.init).lru = 3 := by
  decide

/-- Incrementing a line's recency twice adds exactly 2. -/
theorem bumpLru_bumpLru (x : CacheBlock) :
    bumpLru (bumpLru x) = { x with lru := x.lru + 2 } := by
  have h : x.lru + 1 + 1 = x.lru + 2 := by omega
  simp [bumpLru, h]

/-- Behaviour of the first loop of `Cache::loadWord` when the row is a
non-matching prefix `xs`, the first matching line `b`, and a suffix
`ys`: the prefix is incremented twice (once by the aging pass, once by
the post-hit pass), the matching line ends at recency 0, and the
suffix is incremented once. -/
theorem loadFirstLoop_hit (tag : Nat) (b : CacheBlock)
    (ys : List CacheBlock) (hb : b.valid = true) (htag : b.tag = tag) :
    ∀ (xs done : List CacheBlock),
      (∀ x ∈ xs, x.valid = true → x.tag ≠ tag) →
      loadFirstLoop tag done (xs ++ b :: ys) =
        ((done ++ xs.map bumpLru).map bumpLru ++
          { b with lru := 0 } :: ys.map bumpLru, true) := by
  intro xs
  induction xs with
  | nil =>
    intro done _
    simp only [List.nil_append, loadFirstLoop]
    rw [if_pos (by simp [bumpLru, hb, htag])]
    simp [bumpLru]
  | cons x xs ih =>
    intro done hxs
    simp only [List.cons_append, loadFirstLoop]
    rw [if_neg ?_]
    · rw [show xs.append (b :: ys) = xs ++ b :: ys from rfl,
        ih (done ++ [bumpLru x])
          (fun y hy => hxs y (List.mem_cons_of_mem _ hy))]
      simp [List.append_assoc]
    · have hx := hxs x (List.mem_cons_self x xs)
      simp only [bumpLru, Bool.and_eq_true, beq_iff_eq, not_and]
      exact hx

/-- Behaviour of the first loop of `Cache::loadWord` when no valid
line of the row matches the tag: every line is incremented exactly
once and no hit is signalled. -/
theorem loadFirstLoop_miss (tag : Nat) :
    ∀ (bs done : List CacheBlock),
      (∀ x ∈ bs, x.valid = true → x.tag ≠ tag) →
      loadFirstLoop tag done bs = (done ++ bs.map bumpLru, false) := by
  intro bs
  induction bs with
  | nil =>
    intro done _
    simp [loadFirstLoop]
  | cons x xs ih =>
    intro done hxs
    simp only [loadFirstLoop]
    rw [if_neg ?_]
    · rw [ih (done ++ [bumpLru x])
        (fun y hy => hxs y (List.mem_cons_of_mem _ hy))]
      simp [List.append_assoc]
    · have hx := hxs x (List.mem_cons_self x xs)
      simp only [bumpLru, Bool.and_eq_true, beq_iff_eq, not_and]
      exact hx

/-- The miss-path victim scan of `Cache::loadWord` returns either the
initial candidate (when no recency beats the initial maximum) or the
lowest-index line with the largest recency. -/
theorem loadVictimScan_argmax (bs : List CacheBlock) :
    ∀ (i : Nat) (idx m : Int),
      ((∀ x ∈ bs, x.lru ≤ m) ∧ loadVictimScan bs i idx m = idx) ∨
      (∃ k, k < bs.length ∧ loadVictimScan bs i idx m = (i : Int) + k ∧
        m < (bs.getD k CacheBlock.init).lru ∧
        (∀ j, j < k → (bs.getD j CacheBlock.init).lru <
          (bs.getD k CacheBlock.init).lru) ∧
        (∀ j, j < bs.length → (bs.getD j CacheBlock.init).lru ≤
          (bs.getD k CacheBlock.init).lru)) := by
  induction bs with
  | nil =>
    intro i idx m
    exact Or.inl ⟨by simp, rfl⟩
  | cons b rest ih =>
    intro i idx m
    simp only [loadVictimScan]
    split
    · next hbm =>
      rcases ih (i + 1) (i : Int) b.lru with
        ⟨hle, heq⟩ | ⟨k, hk, heq, hmk, hstrict, hall⟩
      · refine Or.inr ⟨0, by simp, by rw [heq]; omega, by simpa using hbm,
          fun j hj => absurd hj (by omega), ?_⟩
        intro j hj
        cases j with
        | zero => simp
        | succ j' =>
          simp only [List.getD_cons_succ, List.getD_cons_zero]
          have hj' : j' < rest.length := by simpa using hj
          rw [List.getD_eq_getElem _ _ hj']
          exact hle _ (List.getElem_mem hj')
      · refine Or.inr ⟨k + 1, by simpa using Nat.succ_lt_succ hk,
          by rw [heq]; omega, ?_, ?_, ?_⟩
        · simp only [List.getD_cons_succ]
          exact lt_trans hbm hmk
        · intro j hj
          cases j with
          | zero =>
            simp only [List.getD_cons_succ, List.getD_cons_zero]
            exact hmk
          | succ j' =>
            simp only [List.getD_cons_succ]
            exact hstrict j' (by omega)
        · intro j hj
          cases j with
          | zero =>
            simp only [List.getD_cons_succ, List.getD_cons_zero]
            exact le_of_lt hmk
          | succ j' =>
            simp only [List.getD_cons_succ]
            exact hall j' (by simpa using hj)
    · next hbm =>
      have hble : b.lru ≤ m := by omega
      rcases ih (i + 1) idx m with
        ⟨hle, heq⟩ | ⟨k, hk, heq, hmk, hstrict, hall⟩
      · refine Or.inl ⟨?_, heq⟩
        intro x hx
        rcases List.mem_cons.mp hx with rfl | hx'
        · exact hble
        · exact hle x hx'
      · refine Or.inr ⟨k + 1, by simpa using Nat.succ_lt_succ hk,
          by rw [heq]; omega, ?_, ?_, ?_⟩
        · simp only [List.getD_cons_succ]
          exact hmk
        · intro j hj
          cases j with
          | zero =>
            simp only [List.getD_cons_succ, List.getD_cons_zero]
            exact lt_of_le_of_lt hble hmk
          | succ j' =>
            simp only [List.getD_cons_succ]
            exact hstrict j' (by omega)
        · intro j hj
          cases j with
          | zero =>
            simp only [List.getD_cons_succ, List.getD_cons_zero]
            exact le_of_lt (lt_of_le_of_lt hble hmk)
          | succ j' =>
            simp only [List.getD_cons_succ]
            exact hall j' (by simpa using hj)

/-- Reading an aged row at an in-range index is the aged original
line. -/
theorem getD_map_bumpLru (l : List CacheBlock) (j : Nat)
    (hj : j < l.length) :
    (l.map bumpLru).getD j CacheBlock.init =
      bumpLru (l.getD j CacheBlock.init) := by
  rw [List.getD_eq_getElem _ _ (by simpa using hj),
    List.getD_eq_getElem _ _ hj, List.getElem_map]

/-- Claim C3 (amended): on a loadWord hit at line i, the matching
line's recency is reset to 0, every non-matching line *before* i has
its recency incremented by exactly 2 (once by the aging pass, once
more by the post-hit pass), and every line *after* i by exactly 1; on
a miss every line's recency is first incremented exactly once, and
then the victim line — the lowest-index line with the largest
recency — is overwritten as valid with the current tag and recency
reset to 0 (so its counter ends at 0, not one above its pre-access
value). Recencies are non-negative in every reachable cache state. -/
theorem C3_load_recency_amended (c : Cache) (address : Nat)
    (row : List CacheBlock)
    (hrow : c.rows.getD ((address / c.blocksize) % c.numRows) [] = row) :
    (∀ xs b ys, row = xs ++ b :: ys →
      (∀ x ∈ xs, x.valid = true →
        x.tag ≠ (address / c.blocksize) / c.numRows) →
      b.valid = true → b.tag = (address / c.blocksize) / c.numRows →
      c.loadWord address =
        ({ c with rows := (c.rows.set ((address / c.blocksize) % c.numRows)
            (xs.map (fun x => { x with lru := x.lru + 2 }) ++
              { b with lru := 0 } ::
              ys.map (fun y => { y with lru := y.lru + 1 }))) },
         true, (address / c.blocksize) % c.numRows)) ∧
    (row ≠ [] → (∀ x ∈ row, 0 ≤ x.lru) →
      (∀ x ∈ row, x.valid = true →
        x.tag ≠ (address / c.blocksize) / c.numRows) →
      ∃ k, k < row.length ∧
        c.loadWord address =
          ({ c with rows := (c.rows.set ((address / c.blocksize) % c.numRows)
              ((row.map (fun x => { x with lru := x.lru + 1 })).set k
                ⟨true, (address / c.blocksize) / c.numRows, 0⟩)) },
           false, (address / c.blocksize) % c.numRows) ∧
        (∀ j, j < row.length →
          (row.getD j CacheBlock.init).lru ≤
            (row.getD k CacheBlock.init).lru) ∧
        (∀ j, j < k →
          (row.getD j CacheBlock.init).lru <
            (row.getD k CacheBlock.init).lru)) := by
  constructor
  · intro xs b ys hdecomp hxs hb htag
    simp only [Cache.loadWord]
    rw [hrow, hdecomp, loadFirstLoop_hit _ b ys hb htag xs [] hxs]
    have hxs2 : List.map bumpLru (List.map bumpLru xs) =
        xs.map (fun x => { x with lru := x.lru + 2 }) := by
      rw [List.map_map]
      simp [Function.comp, bumpLru_bumpLru]
    have hys : List.map bumpLru ys =
        ys.map (fun y => { y with lru := y.lru + 1 }) := rfl
    simp [hxs2, hys]
  · intro hne hlru hnomatch
    rcases loadVictimScan_argmax (row.map bumpLru) 0 (-1) (-1) with
      ⟨hle, _⟩ | ⟨k, hk, heq, _, hstrict, hall⟩
    · exfalso
      cases row with
      | nil => exact hne rfl
      | cons y ys =>
        have h1 := hle (bumpLru y) (by simp)
        have h2 := hlru y (List.mem_cons_self y ys)
        simp [bumpLru] at h1
        omega
    · have hk' : k < row.length := by simpa using hk
      have htn : (loadVictimScan
          (row.map (fun x => { x with lru := x.lru + 1 })) 0
          (-1) (-1)).toNat = k := by
        have heq' : loadVictimScan
            (row.map (fun x => { x with lru := x.lru + 1 })) 0 (-1) (-1) =
            ((0 : Nat) : Int) + k := heq
        rw [heq']
        omega
      have hrowmap : List.map bumpLru row =
          row.map (fun x => { x with lru := x.lru + 1 }) := rfl
      refine ⟨k, hk', ?_, ?_, ?_⟩
      · simp only [Cache.loadWord]
        rw [hrow, loadFirstLoop_miss _ row [] hnomatch]
        simp [hrowmap, htn]
      · intro j hj
        have h1 := hall j (by simpa using hj)
        rw [getD_map_bumpLru row j hj, getD_map_bumpLru row k hk'] at h1
        simp only [bumpLru] at h1
        omega
      · intro j hjk
        have hj : j < row.length := lt_trans hjk hk'
        have h1 := hstrict j hjk
        rw [getD_map_bumpLru row j hj, getD_map_bumpLru row k hk'] at h1
        simp only [bumpLru] at h1
        omega

/-- Witness for C3_load_recency_amended: the (2,2,1) cache state with
row [⟨true,0,1⟩, ⟨true,1,0⟩] at address 1 (for the hit clause, the
decomposition with the match at line 1 applies; the miss clause's
hypotheses are dischargeable for rows with no matching tag). -/
theorem C3_load_recency_amended_witness :
    (∀ xs b ys,
      ([⟨true, 0, 1⟩, ⟨true, 1, 0⟩] : List CacheBlock) = xs ++ b :: ys →
      (∀ x ∈ xs, x.valid = true → x.tag ≠ 1) →
      b.valid = true → b.tag = 1 →
      (Cache.mk [[⟨true, 0, 1⟩, ⟨true, 1, 0⟩]] 2 2 1 1).loadWord 1 =
        ({ Cache.mk [[⟨true, 0, 1⟩, ⟨true, 1, 0⟩]] 2 2 1 1 with
            rows := ([[⟨true, 0, 1⟩, ⟨true, 1, 0⟩]].set 0
              (xs.map (fun x => { x with lru := x.lru + 2 }) ++
                { b with lru := 0 } ::
                ys.map (fun y => { y with lru := y.lru + 1 }))) },
         true, 0)) ∧
    (([⟨true, 0, 1⟩, ⟨true, 1, 0⟩] : List CacheBlock) ≠ [] →
      (∀ x ∈ ([⟨true, 0, 1⟩, ⟨true, 1, 0⟩] : List CacheBlock),
        0 ≤ x.lru) →
      (∀ x ∈ ([⟨true, 0, 1⟩, ⟨true, 1, 0⟩] : List CacheBlock),
        x.valid = true → x.tag ≠ 1) →
      ∃ k, k < ([⟨true, 0, 1⟩, ⟨true, 1, 0⟩] : List CacheBlock).length ∧
        (Cache.mk [[⟨true, 0, 1⟩, ⟨true, 1, 0⟩]] 2 2 1 1).loadWord 1 =
          ({ Cache.mk [[⟨true, 0, 1⟩, ⟨true, 1, 0⟩]] 2 2 1 1 with
              rows := ([[⟨true, 0, 1⟩, ⟨true, 1, 0⟩]].set 0
                (([(⟨true, 0, 1⟩ : CacheBlock), ⟨true, 1, 0⟩].map
                  (fun x => { x with lru := x.lru + 1 })).set k
                  ⟨true, 1, 0⟩)) },
           false, 0) ∧
        (∀ j, j < ([⟨true, 0, 1⟩, ⟨true, 1, 0⟩] :
            List CacheBlock).length →
          ([⟨true, 0, 1⟩, ⟨true, 1, 0⟩].getD j CacheBlock.init).lru ≤
            ([⟨true, 0, 1⟩, ⟨true, 1, 0⟩].getD k CacheBlock.init).lru) ∧
        (∀ j, j < k →
          ([⟨true, 0, 1⟩, ⟨true, 1, 0⟩].getD j CacheBlock.init).lru <
            ([⟨true, 0, 1⟩, ⟨true, 1, 0⟩].getD k CacheBlock.init).lru)) :=
  C3_load_recency_amended
    (Cache.mk [[⟨true, 0, 1⟩, ⟨true, 1, 0⟩]] 2 2 1 1) 1
    [⟨true, 0, 1⟩, ⟨true, 1, 0⟩] (by decide)

/-- Claim C4 (counterexample): in a fresh (2,2,1) cache both lines of
row 0 are invalid, so the first (lowest-index) invalid line is line 0;
yet `storeWord 0` installs line 1 (line 0 stays invalid), because the
scan adopts every later invalid line as victim. -/
theorem C4_store_victim_counterexample :
    (((Cache.init 2 2 1).rows.getD 0 []).getD 0 CacheBlock.init).valid
      = false ∧
    ((((Cache.init 2 2 1).storeWord 0).1.rows.getD 0 []).getD 0
      CacheBlock.init).valid = false ∧
    (((Cache.init 2 2 1).storeWord 0).1.rows.getD 0 []).getD 1
      CacheBlock.init = ⟨true, 0, 0⟩ := by
  decide

/-- The first component of the storeWord scan: every block of the row
has its recency incremented exactly once. -/
theorem storeScan_fst (bs : List CacheBlock) :
    ∀ (i : Nat) (idx m : Int),
      (storeScan bs i idx m).1 = bs.map bumpLru := by
  induction bs with
  | nil => intro i idx m; rfl
  | cons b rest ih =>
    intro i idx m
    simp only [storeScan, List.map_cons]
    split <;> simp [ih]

/-- The victim index returned by the storeWord scan is either the
initial candidate or an in-range index offset by the scan start. -/
theorem storeScan_idx_range (bs : List CacheBlock) :
    ∀ (i : Nat) (idx m : Int),
      (storeScan bs i idx m).2 = idx ∨
      ∃ k, k < bs.length ∧ (storeScan bs i idx m).2 = (i : Int) + k := by
  induction bs with
  | nil => intro i idx m; exact Or.inl rfl
  | cons b rest ih =>
    intro i idx m
    simp only [storeScan]
    split
    · rcases ih (i + 1) (i : Int) b.lru with h1 | ⟨k, hk, h1⟩
      · refine Or.inr ⟨0, by simp, ?_⟩
        rw [h1]
        omega
      · refine Or.inr ⟨k + 1, by simp [Nat.succ_lt_succ hk], ?_⟩
        rw [h1]
        omega
    · rcases ih (i + 1) idx m with h1 | ⟨k, hk, h1⟩
      · exact Or.inl h1
      · refine Or.inr ⟨k + 1, by simp [Nat.succ_lt_succ hk], ?_⟩
        rw [h1]
        omega

/-- Every invalid line of the row pushes the storeWord scan's victim
index at least up to its own position: the final victim index is never
smaller than any invalid line's index. -/
theorem storeScan_idx_invalid (bs : List CacheBlock) :
    ∀ (i : Nat) (idx m : Int) (j : Nat), j < bs.length →
      (bs.getD j CacheBlock.init).valid = false →
      (i : Int) + j ≤ (storeScan bs i idx m).2 := by
  induction bs with
  | nil => intro i idx m j hj hv; simp at hj
  | cons b rest ih =>
    intro i idx m j hj hv
    simp only [storeScan]
    cases j with
    | zero =>
      simp only [List.getD_cons_zero] at hv
      split
      · rcases storeScan_idx_range rest (i + 1) (i : Int) b.lru with
          h1 | ⟨k, hk, h1⟩
        · rw [h1]; omega
        · rw [h1]; omega
      · next hcond =>
        exfalso
        apply hcond
        simp [hv]
    | succ j' =>
      simp only [List.getD_cons_succ] at hv
      have hj' : j' < rest.length := by simpa using hj
      split
      · have h := ih (i + 1) (i : Int) b.lru j' hj' hv
        omega
      · have h := ih (i + 1) idx m j' hj' hv
        omega

/-- When every line of the row is valid, the storeWord scan's victim
is the lowest-index line with the largest recency (or the initial
candidate when no line beats the initial maximum). -/
theorem storeScan_idx_all_valid (bs : List CacheBlock) :
    ∀ (i : Nat) (idx m : Int), (∀ x ∈ bs, x.valid = true) →
      ((∀ x ∈ bs, x.lru ≤ m) ∧ (storeScan bs i idx m).2 = idx) ∨
      (∃ k, k < bs.length ∧ (storeScan bs i idx m).2 = (i : Int) + k ∧
        m < (bs.getD k CacheBlock.init).lru ∧
        (∀ j, j < k → (bs.getD j CacheBlock.init).lru <
          (bs.getD k CacheBlock.init).lru) ∧
        (∀ j, j < bs.length → (bs.getD j CacheBlock.init).lru ≤
          (bs.getD k CacheBlock.init).lru)) := by
  induction bs with
  | nil =>
    intro i idx m _
    exact Or.inl ⟨by simp, rfl⟩
  | cons b rest ih =>
    intro i idx m hval
    have hbval : b.valid = true := hval b (List.mem_cons_self b rest)
    have hrest : ∀ x ∈ rest, x.valid = true :=
      fun x hx => hval x (List.mem_cons_of_mem b hx)
    simp only [storeScan]
    split
    · next hcond =>
      have hbm : m < b.lru := by
        simp [hbval] at hcond
        exact hcond
      rcases ih (i + 1) (i : Int) b.lru hrest with
        ⟨hle, heq⟩ | ⟨k, hk, heq, hmk, hstrict, hall⟩
      · refine Or.inr ⟨0, by simp, by rw [heq]; omega, by simpa using hbm,
          fun j hj => absurd hj (by omega), ?_⟩
        intro j hj
        cases j with
        | zero => simp
        | succ j' =>
          simp only [List.getD_cons_succ, List.getD_cons_zero]
          have hj' : j' < rest.length := by simpa using hj
          rw [List.getD_eq_getElem _ _ hj']
          exact hle _ (List.getElem_mem hj')
      · refine Or.inr ⟨k + 1, by simpa using Nat.succ_lt_succ hk,
          by rw [heq]; omega, ?_, ?_, ?_⟩
        · simp only [List.getD_cons_succ]
          exact lt_trans hbm hmk
        · intro j hj
          cases j with
          | zero =>
            simp only [List.getD_cons_succ, List.getD_cons_zero]
            exact hmk
          | succ j' =>
            simp only [List.getD_cons_succ]
            exact hstrict j' (by omega)
        · intro j hj
          cases j with
          | zero =>
            simp only [List.getD_cons_succ, List.getD_cons_zero]
            exact le_of_lt hmk
          | succ j' =>
            simp only [List.getD_cons_succ]
            exact hall j' (by simpa using hj)
    · next hcond =>
      have hbm : b.lru ≤ m := by
        simp [hbval] at hcond
        omega
      rcases ih (i + 1) idx m hrest with
        ⟨hle, heq⟩ | ⟨k, hk, heq, hmk, hstrict, hall⟩
      · refine Or.inl ⟨?_, heq⟩
        intro x hx
        rcases List.mem_cons.mp hx with rfl | hx'
        · exact hbm
        · exact hle x hx'
      · refine Or.inr ⟨k + 1, by simpa using Nat.succ_lt_succ hk,
          by rw [heq]; omega, ?_, ?_, ?_⟩
        · simp only [List.getD_cons_succ]
          exact hmk
        · intro j hj
          cases j with
          | zero =>
            simp only [List.getD_cons_succ, List.getD_cons_zero]
            exact lt_of_le_of_lt hbm hmk
          | succ j' =>
            simp only [List.getD_cons_succ]
            exact hstrict j' (by omega)
        · intro j hj
          cases j with
          | zero =>
            simp only [List.getD_cons_succ, List.getD_cons_zero]
            exact le_of_lt (lt_of_le_of_lt hbm hmk)
          | succ j' =>
            simp only [List.getD_cons_succ]
            exact hall j' (by simpa using hj)

/-- Claim C4 (amended): storeWord installs (valid, current tag,
recency 0) over the aged row at a victim index k chosen by the single
scan; when every line is valid, k is the lowest-index line with the
largest recency, but when invalid lines exist k is only guaranteed to
be at least the position of *every* invalid line (the scan adopts each
later invalid line, and a later valid line with larger recency can
still displace it) — in particular it is the last invalid line, not
the first, in a row of several invalid lines. Recencies are
non-negative in every reachable cache state. -/
theorem C4_store_victim_amended (c : Cache) (address : Nat)
    (row : List CacheBlock)
    (hrow : c.rows.getD ((address / c.blocksize) % c.numRows) [] = row)
    (hne : row ≠ [])
    (hlru : ∀ x ∈ row, 0 ≤ x.lru) :
    ∃ k, k < row.length ∧
      (c.storeWord address).1 =
        { c with rows := (c.rows.set ((address / c.blocksize) % c.numRows)
            ((row.map bumpLru).set k
              ⟨true, (address / c.blocksize) / c.numRows, 0⟩)) } ∧
      ((∀ x ∈ row, x.valid = true) →
        (∀ j, j < row.length →
          (row.getD j CacheBlock.init).lru ≤
            (row.getD k CacheBlock.init).lru) ∧
        (∀ j, j < k →
          (row.getD j CacheBlock.init).lru <
            (row.getD k CacheBlock.init).lru)) ∧
      (∀ j, j < row.length →
        (row.getD j CacheBlock.init).valid = false → j ≤ k) := by
  by_cases hv : ∀ x ∈ row, x.valid = true
  · rcases storeScan_idx_all_valid row 0 (-1) (-1) hv with
      ⟨hle, _⟩ | ⟨k, hk, heq, _, hstrict, hall⟩
    · exfalso
      cases row with
      | nil => exact hne rfl
      | cons y ys =>
        have h1 := hle y (List.mem_cons_self y ys)
        have h2 := hlru y (List.mem_cons_self y ys)
        omega
    · have htn : (storeScan row 0 (-1) (-1)).2.toNat = k := by
        rw [heq]; omega
      refine ⟨k, hk, ?_, fun _ => ⟨hall, hstrict⟩, ?_⟩
      · simp only [Cache.storeWord]
        rw [hrow, storeScan_fst row 0 (-1) (-1), htn]
      · intro j hj hinvj
        exfalso
        have hmem : row.getD j CacheBlock.init ∈ row := by
          rw [List.getD_eq_getElem _ _ hj]
          exact List.getElem_mem hj
        rw [hv _ hmem] at hinvj
        cases hinvj
  · push_neg at hv
    obtain ⟨x, hxmem, hxval⟩ := hv
    have hxf : x.valid = false := by
      cases hb2 : x.valid
      · rfl
      · exact absurd hb2 hxval
    obtain ⟨j0, hj0, hx⟩ := List.getElem_of_mem hxmem
    have hinv0 : (row.getD j0 CacheBlock.init).valid = false := by
      rw [List.getD_eq_getElem _ _ hj0, hx]
      exact hxf
    have hge := storeScan_idx_invalid row 0 (-1) (-1) j0 hj0 hinv0
    rcases storeScan_idx_range row 0 (-1) (-1) with h1 | ⟨k, hk, h1⟩
    · exfalso
      rw [h1] at hge
      omega
    · have htn : (storeScan row 0 (-1) (-1)).2.toNat = k := by
        rw [h1]; omega
      refine ⟨k, hk, ?_, ?_, ?_⟩
      · simp only [Cache.storeWord]
        rw [hrow, storeScan_fst row 0 (-1) (-1), htn]
      · intro hvall
        exact absurd (hvall x hxmem) hxval
      · intro j hj hinvj
        have h2 := storeScan_idx_invalid row 0 (-1) (-1) j hj hinvj
        rw [h1] at h2
        omega

/-- Witness for C4_store_victim_amended: a fresh (2,2,1) cache, store
to address 0 (both lines invalid, victim is line 1). -/
theorem C4_store_victim_amended_witness :
    ∃ k, k < ([CacheBlock.init, CacheBlock.init] : List CacheBlock).length ∧
      ((Cache.init 2 2 1).storeWord 0).1 =
        { Cache.init 2 2 1 with
          rows := ((Cache.init 2 2 1).rows.set ((0 / 1) % 1)
            (([CacheBlock.init, CacheBlock.init].map bumpLru).set k
              ⟨true, (0 / 1) / 1, 0⟩)) } ∧
      ((∀ x ∈ ([CacheBlock.init, CacheBlock.init] : List CacheBlock),
          x.valid = true) →
        (∀ j, j < ([CacheBlock.init, CacheBlock.init] :
            List CacheBlock).length →
          ([CacheBlock.init, CacheBlock.init].getD j CacheBlock.init).lru ≤
            ([CacheBlock.init, CacheBlock.init].getD k
              CacheBlock.init).lru) ∧
        (∀ j, j < k →
          ([CacheBlock.init, CacheBlock.init].getD j CacheBlock.init).lru <
            ([CacheBlock.init, CacheBlock.init].getD k
              CacheBlock.init).lru)) ∧
      (∀ j, j < ([CacheBlock.init, CacheBlock.init] :
          List CacheBlock).length →
        ([CacheBlock.init, CacheBlock.init].getD j
          CacheBlock.init).valid = false → j ≤ k) :=
  C4_store_victim_amended (Cache.init 2 2 1) 0
    [CacheBlock.init, CacheBlock.init] (by decide) (by decide) (by decide)

/-- Claim C5 (counterexample): the configuration (5,2,1) has a
non-integral row count (5 / 2 truncates to 2), yet the constructor
silently builds a 2-row cache and the simulator executes instructions
with it (an addi sets $1 = 7, then the program halts) instead of
reporting a fatal configuration error before any instruction. -/
theorem C5_config_counterexample :
    (Cache.init 5 2 1).numRows = 2 ∧ 2 * (2 * 1) ≠ 5 ∧
    (run 2 (initState [8327, 16385]
      (Cache.init 5 2 1) none)).regs.getD 1 0 = 7 ∧
    (run 2 (initState [8327, 16385]
      (Cache.init 5 2 1) none)).halted = true := by
  decide

/-- Claim C5 (amended): the cache constructor performs no validation:
for every configuration triple it succeeds, with the row count given by
the truncating integer division size / (assoc * bsize) (so a
non-integral quotient is silently rounded down and a product exceeding
the size yields a cache with zero rows), and each constructed row has
`assoc` line slots. -/
theorem C5_config_no_validation (size assoc bsize : Nat) :
    (Cache.init size assoc bsize).numRows = size / (assoc * bsize) ∧
    (Cache.init size assoc bsize).rows.length = size / (assoc * bsize) ∧
    ∀ row ∈ (Cache.init size assoc bsize).rows, row.length = assoc := by
  refine ⟨rfl, by simp [Cache.init], ?_⟩
  intro row hrow
  rw [List.eq_of_mem_replicate hrow]
  simp

/-- Claim C8: when the fetched word has opcode 010 and its 13-bit
immediate equals the current pc, the step halts the machine and leaves
every other component of the state (pc, registers, memory, caches,
log) exactly unchanged; every further iteration of the loop is the
identity on that halted state. -/
theorem C8_self_jump_halts (s : MachState)
    (hop : (s.mem.getD (s.pc % 8192) 0 / 8192) % 8 = 2)
    (himm : s.mem.getD (s.pc % 8192) 0 % 8192 = s.pc) :
    step s = { s with halted := true } ∧
    ∀ n, run n (step s) = step s := by
  have h1 : step s = { s with halted := true } := by
    simp only [step]
    rw [if_pos (And.intro hop himm)]
  refine ⟨h1, ?_⟩
  intro n
  cases n with
  | zero => rfl
  | succ n => rw [h1]; simp [run]

/-- Witness for C8_self_jump_halts: the one-instruction program
j 0 (16384) at pc 0. -/
theorem C8_self_jump_halts_witness :
    step (initState [16384] (Cache.init 4 1 1) none) =
      { initState [16384] (Cache.init 4 1 1) none with halted := true } ∧
    ∀ n, run n (step (initState [16384] (Cache.init 4 1 1) none)) =
      step (initState [16384] (Cache.init 4 1 1) none) :=
  C8_self_jump_halts (initState [16384] (Cache.init 4 1 1) none)
    (by decide) (by decide)

/-- The register-register handler always leaves register 0 reading 0. -/
theorem execute_instruction_reg0 (instr : Nat) (regs : List Nat)
    (pc : Nat) :
    (execute_instruction instr regs pc).1.getD 0 0 = 0 := by
  unfold execute_instruction
  exact getD_set_zero _

/-- The immediate-family handler always leaves register 0 reading 0. -/
theorem execute_imm_instruction_reg0 (instr : Nat) (regs : List Nat)
    (pc : Nat) (memory : List Nat) (l1 : Cache) (l2 : Option Cache) :
    (execute_imm_instruction instr regs pc memory l1 l2).regs.getD 0 0
      = 0 := by
  simp only [execute_imm_instruction]
  repeat' split
  all_goals exact getD_set_zero _

/-- The control-family handler always leaves register 0 reading 0. -/
theorem execute_control_instruction_reg0 (instr : Nat) (regs : List Nat)
    (pc : Nat) (isHalt : Bool) :
    (execute_control_instruction instr regs pc isHalt).1.getD 0 0 = 0 := by
  simp only [execute_control_instruction]
  repeat' split
  all_goals exact getD_set_zero _

/-- Claim C9: after every executed instruction (i.e. whenever the
fetched word is not a halting self-jump), register 0 reads as 0: every
family handler forces `regs[0] = 0` before returning. -/
theorem C9_reg0_always_zero (s : MachState)
    (hexec : ¬((s.mem.getD (s.pc % 8192) 0 / 8192) % 8 = 2 ∧
               s.mem.getD (s.pc % 8192) 0 % 8192 = s.pc)) :
    (step s).regs.getD 0 0 = 0 := by
  simp only [step]
  rw [if_neg hexec]
  split
  · exact execute_instruction_reg0 (s.mem.getD (s.pc % 8192) 0) s.regs s.pc
  split
  · exact execute_imm_instruction_reg0 (s.mem.getD (s.pc % 8192) 0)
      s.regs s.pc s.mem s.l1 s.l2
  · exact execute_control_instruction_reg0 (s.mem.getD (s.pc % 8192) 0)
      s.regs s.pc s.halted

/-- Claim C6: for an executed load-word with a two-level
configuration, L1 is probed on the effective address; on an L1 hit
exactly one log event (L1 HIT) is emitted and L2 is untouched; on an
L1 miss exactly two events are emitted — L1 MISS then the L2 outcome —
and L2 is probed on the same effective address (decoding it with its
own geometry). -/
theorem C6_two_level_load (instr : Nat) (regs : List Nat) (pc : Nat)
    (memory : List Nat) (l1 c2 : Cache)
    (hop : (instr / 8192) % 8 = 4) :
    ((l1.loadWord (effAddr instr regs)).2.1 = true →
      (execute_imm_instruction instr regs pc memory l1 (some c2)).log =
        [⟨"L1", "HIT", pc, effAddr instr regs,
          (l1.loadWord (effAddr instr regs)).2.2⟩] ∧
      (execute_imm_instruction instr regs pc memory l1 (some c2)).l1 =
        (l1.loadWord (effAddr instr regs)).1 ∧
      (execute_imm_instruction instr regs pc memory l1 (some c2)).l2 =
        some c2) ∧
    ((l1.loadWord (effAddr instr regs)).2.1 = false →
      (execute_imm_instruction instr regs pc memory l1 (some c2)).log =
        [⟨"L1", "MISS", pc, effAddr instr regs,
          (l1.loadWord (effAddr instr regs)).2.2⟩,
         ⟨"L2", if (c2.loadWord (effAddr instr regs)).2.1 then "HIT"
                else "MISS",
          pc, effAddr instr regs,
          (c2.loadWord (effAddr instr regs)).2.2⟩] ∧
      (execute_imm_instruction instr regs pc memory l1 (some c2)).l1 =
        (l1.loadWord (effAddr instr regs)).1 ∧
      (execute_imm_instruction instr regs pc memory l1 (some c2)).l2 =
        some (c2.loadWord (effAddr instr regs)).1) := by
  constructor <;> intro h <;>
    · simp only [execute_imm_instruction, effAddr] at h ⊢
      simp only [List.getD_eq_getElem?_getD] at h
      simp [hop, h]

/-- Witness for C6_two_level_load: lw $2,5($0) (33029) with all
registers 0, L1 = (4,1,1), L2 = (8,1,1). -/
theorem C6_two_level_load_witness :
    (((Cache.init 4 1 1).loadWord
        (effAddr 33029 (List.replicate 8 0))).2.1 = true →
      (execute_imm_instruction 33029 (List.replicate 8 0) 0 []
        (Cache.init 4 1 1) (some (Cache.init 8 1 1))).log =
        [⟨"L1", "HIT", 0, effAddr 33029 (List.replicate 8 0),
          ((Cache.init 4 1 1).loadWord
            (effAddr 33029 (List.replicate 8 0))).2.2⟩] ∧
      (execute_imm_instruction 33029 (List.replicate 8 0) 0 []
        (Cache.init 4 1 1) (some (Cache.init 8 1 1))).l1 =
        ((Cache.init 4 1 1).loadWord
          (effAddr 33029 (List.replicate 8 0))).1 ∧
      (execute_imm_instruction 33029 (List.replicate 8 0) 0 []
        (Cache.init 4 1 1) (some (Cache.init 8 1 1))).l2 =
        some (Cache.init 8 1 1)) ∧
    (((Cache.init 4 1 1).loadWord
        (effAddr 33029 (List.replicate 8 0))).2.1 = false →
      (execute_imm_instruction 33029 (List.replicate 8 0) 0 []
        (Cache.init 4 1 1) (some (Cache.init 8 1 1))).log =
        [⟨"L1", "MISS", 0, effAddr 33029 (List.replicate 8 0),
          ((Cache.init 4 1 1).loadWord
            (effAddr 33029 (List.replicate 8 0))).2.2⟩,
         ⟨"L2", if ((Cache.init 8 1 1).loadWord
                  (effAddr 33029 (List.replicate 8 0))).2.1 then "HIT"
                else "MISS",
          0, effAddr 33029 (List.replicate 8 0),
          ((Cache.init 8 1 1).loadWord
            (effAddr 33029 (List.replicate 8 0))).2.2⟩] ∧
      (execute_imm_instruction 33029 (List.replicate 8 0) 0 []
        (Cache.init 4 1 1) (some (Cache.init 8 1 1))).l1 =
        ((Cache.init 4 1 1).loadWord
          (effAddr 33029 (List.replicate 8 0))).1 ∧
      (execute_imm_instruction 33029 (List.replicate 8 0) 0 []
        (Cache.init 4 1 1) (some (Cache.init 8 1 1))).l2 =
        some ((Cache.init 8 1 1).loadWord
          (effAddr 33029 (List.replicate 8 0))).1) :=
  C6_two_level_load 33029 (List.replicate 8 0) 0 [] (Cache.init 4 1 1)
    (Cache.init 8 1 1) (by decide)

/-- Claim C7: every executed store-word writes the source register
(bits 9-7) through to backing memory at the effective address, issues
storeWord unconditionally to L1 and — when configured — to L2 on that
same address, logs L1 SW (and L2 SW if L2 exists), and advances pc by
1; the effective address is (base + signed immediate) mod 2^13. -/
theorem C7_store_writethrough (instr : Nat) (regs : List Nat) (pc : Nat)
    (memory : List Nat) (l1 : Cache) (l2 : Option Cache)
    (hop : (instr / 8192) % 8 = 5) :
    (execute_imm_instruction instr regs pc memory l1 l2).mem =
      memory.set (effAddr instr regs) (regs.getD ((instr / 128) % 8) 0) ∧
    (execute_imm_instruction instr regs pc memory l1 l2).l1 =
      (l1.storeWord (effAddr instr regs)).1 ∧
    (execute_imm_instruction instr regs pc memory l1 l2).l2 =
      Option.map (fun c => (c.storeWord (effAddr instr regs)).1) l2 ∧
    (execute_imm_instruction instr regs pc memory l1 l2).log =
      ⟨"L1", "SW", pc, effAddr instr regs,
        (l1.storeWord (effAddr instr regs)).2⟩ ::
      Option.elim l2 [] (fun c =>
        [⟨"L2", "SW", pc, effAddr instr regs,
          (c.storeWord (effAddr instr regs)).2⟩]) ∧
    (execute_imm_instruction instr regs pc memory l1 l2).pc =
      (pc + 1) % 65536 ∧
    ((effAddr instr regs : Nat) : Int) =
      ((regs.getD ((instr / 1024) % 8) 0 : Int) +
        ((instr % 128 : Int) - if 64 ≤ instr % 128 then 128 else 0))
        % 8192 := by
  have hlt : (regs.getD ((instr / 1024) % 8) 0 +
      signExtend7 (instr % 128)) % 8192 < 8192 :=
    Nat.mod_lt _ (by norm_num)
  simp only [List.getD_eq_getElem?_getD] at hlt
  cases l2 with
  | none =>
    refine ⟨?_, ?_, ?_, ?_, ?_, effAddr_signed instr regs⟩ <;>
      · simp only [execute_imm_instruction, effAddr]
        simp [hop, hlt]
  | some c2 =>
    refine ⟨?_, ?_, ?_, ?_, ?_, effAddr_signed instr regs⟩ <;>
      · simp only [execute_imm_instruction, effAddr]
        simp [hop, hlt]

/-- Witness for C7_store_writethrough: sw $1,5($0) (41093) with
$1 = 7, a two-level (4,1,1)/(8,1,1) configuration. -/
theorem C7_store_writethrough_witness :
    (execute_imm_instruction 41093 [0, 7, 0, 0, 0, 0, 0, 0] 0
        (List.replicate 16 0) (Cache.init 4 1 1)
        (some (Cache.init 8 1 1))).mem =
      (List.replicate 16 0).set
        (effAddr 41093 [0, 7, 0, 0, 0, 0, 0, 0]) 7 ∧
    (execute_imm_instruction 41093 [0, 7, 0, 0, 0, 0, 0, 0] 0
        (List.replicate 16 0) (Cache.init 4 1 1)
        (some (Cache.init 8 1 1))).l1 =
      ((Cache.init 4 1 1).storeWord
        (effAddr 41093 [0, 7, 0, 0, 0, 0, 0, 0])).1 ∧
    (execute_imm_instruction 41093 [0, 7, 0, 0, 0, 0, 0, 0] 0
        (List.replicate 16 0) (Cache.init 4 1 1)
        (some (Cache.init 8 1 1))).l2 =
      Option.map (fun c =>
          (c.storeWord (effAddr 41093 [0, 7, 0, 0, 0, 0, 0, 0])).1)
        (some (Cache.init 8 1 1)) ∧
    (execute_imm_instruction 41093 [0, 7, 0, 0, 0, 0, 0, 0] 0
        (List.replicate 16 0) (Cache.init 4 1 1)
        (some (Cache.init 8 1 1))).log =
      ⟨"L1", "SW", 0, effAddr 41093 [0, 7, 0, 0, 0, 0, 0, 0],
        ((Cache.init 4 1 1).storeWord
          (effAddr 41093 [0, 7, 0, 0, 0, 0, 0, 0])).2⟩ ::
      Option.elim (some (Cache.init 8 1 1)) [] (fun c =>
        [⟨"L2", "SW", 0, effAddr 41093 [0, 7, 0, 0, 0, 0, 0, 0],
          (c.storeWord (effAddr 41093 [0, 7, 0, 0, 0, 0, 0, 0])).2⟩]) ∧
    (execute_imm_instruction 41093 [0, 7, 0, 0, 0, 0, 0, 0] 0
        (List.replicate 16 0) (Cache.init 4 1 1)
        (some (Cache.init 8 1 1))).pc = (0 + 1) % 65536 ∧
    ((effAddr 41093 [0, 7, 0, 0, 0, 0, 0, 0] : Nat) : Int) =
      (([0, 7, 0, 0, 0, 0, 0, 0].getD ((41093 / 1024) % 8) 0 : Int) +
        ((41093 % 128 : Int) -
          if 64 ≤ 41093 % 128 then 128 else 0)) % 8192 :=
  C7_store_writethrough 41093 [0, 7, 0, 0, 0, 0, 0, 0] 0
    (List.replicate 16 0) (Cache.init 4 1 1) (some (Cache.init 8 1 1))
    (by decide)

/-- Claim C10: register arithmetic wraps modulo 2^16: add stores
(a + b) mod 2^16, subtract stores (a + 2^16 - b) mod 2^16 — which as
integers is (a - b) mod 2^16 — and add-immediate stores
(a + sign-extended imm) mod 2^16, which as integers is (a + signed
imm) mod 2^16. -/
theorem C10_arithmetic_wraps (i1 i2 i3 : Nat) (regs : List Nat)
    (pc : Nat) (memory : List Nat) (l1 : Cache) (l2 : Option Cache)
    (h1 : i1 % 16 = 0) (h2 : i2 % 16 = 1)
    (h3 : (i3 / 8192) % 8 = 1) :
    (execute_instruction i1 regs pc).1 =
      (regs.set ((i1 / 16) % 8)
        ((regs.getD ((i1 / 1024) % 8) 0 +
          regs.getD ((i1 / 128) % 8) 0) % 65536)).set 0 0 ∧
    (execute_instruction i2 regs pc).1 =
      (regs.set ((i2 / 16) % 8)
        ((regs.getD ((i2 / 1024) % 8) 0 + 65536 -
          regs.getD ((i2 / 128) % 8) 0) % 65536)).set 0 0 ∧
    (execute_imm_instruction i3 regs pc memory l1 l2).regs =
      (regs.set ((i3 / 128) % 8)
        ((regs.getD ((i3 / 1024) % 8) 0 +
          signExtend7 (i3 % 128)) % 65536)).set 0 0 ∧
    (∀ a b : Nat, b < 65536 →
      (((a + 65536 - b) % 65536 : Nat) : Int) =
        ((a : Int) - (b : Int)) % 65536) ∧
    (∀ a m : Nat, m < 128 →
      (((a + signExtend7 m) % 65536 : Nat) : Int) =
        ((a : Int) + ((m : Int) - if 64 ≤ m then 128 else 0))
          % 65536) := by
  refine ⟨?_, ?_, ?_, ?_, ?_⟩
  · simp only [execute_instruction]
    simp [h1]
  · simp only [execute_instruction]
    simp [h2]
  · simp only [execute_imm_instruction]
    simp [h3]
  · intro a b hb
    omega
  · intro a m hm
    unfold signExtend7
    by_cases h : 64 ≤ m
    · simp only [if_pos h]
      omega
    · simp only [if_neg h]
      omega

/-- Witness for C10_arithmetic_wraps: add $3,$1,$2 (1328),
sub $3,$1,$2 (1329), addi $1,$0,7 (8327), with $1 = 5, $2 = 3. -/
theorem C10_arithmetic_wraps_witness :
    (execute_instruction 1328 [0, 5, 3, 0, 0, 0, 0, 0] 0).1 =
      ([0, 5, 3, 0, 0, 0, 0, 0].set 3 ((5 + 3) % 65536)).set 0 0 ∧
    (execute_instruction 1329 [0, 5, 3, 0, 0, 0, 0, 0] 0).1 =
      ([0, 5, 3, 0, 0, 0, 0, 0].set 3 ((5 + 65536 - 3) % 65536)).set 0 0 ∧
    (execute_imm_instruction 8327 [0, 5, 3, 0, 0, 0, 0, 0] 0 []
        (Cache.init 4 1 1) none).regs =
      ([0, 5, 3, 0, 0, 0, 0, 0].set 1 ((0 + signExtend7 7) % 65536)).set 0 0 ∧
    (∀ a b : Nat, b < 65536 →
      (((a + 65536 - b) % 65536 : Nat) : Int) =
        ((a : Int) - (b : Int)) % 65536) ∧
    (∀ a m : Nat, m < 128 →
      (((a + signExtend7 m) % 65536 : Nat) : Int) =
        ((a : Int) + ((m : Int) - if 64 ≤ m then 128 else 0))
          % 65536) :=
  C10_arithmetic_wraps 1328 1329 8327 [0, 5, 3, 0, 0, 0, 0, 0] 0 []
    (Cache.init 4 1 1) none (by decide) (by decide) (by decide)

/-- Witness for C9_reg0_always_zero: one addi instruction. -/
theorem C9_reg0_always_zero_witness :
    (step (initState [8327] (Cache.init 4 1 1) none)).regs.getD 0 0 = 0 :=
  C9_reg0_always_zero (initState [8327] (Cache.init 4 1 1) none)
    (by decide)

end Simcache
